import Mathlib

/-!
Verification of the merge-and-track subsystem of a shared analysis directory
(client/filesystem.py) and of the taint-model specification value types
(tools/generate_taint_models/generator_specifications.py).

Paths handled by the merge engine are modelled as lists of components
(an absolute POSIX path `/a/b` is `["a", "b"]`, the filesystem root is `[]`).
Functions whose behaviour is genuinely string-level (startswith-based
prefix checks, os.path.relpath on strings) are modelled on `String` using
character lists, so that boundary behaviour such as `"/foo"` being a string
prefix of `"/foo2"` is preserved exactly.

External collaborators (the file lister, the filesystem, the build-target
resolver) are parameters of the corresponding definitions; a lister failure
(subprocess.CalledProcessError) is `Except.error ()`.
-/

abbrev PyPath := List String

/-- Python `pre.data.isPrefixOf s.data`: `s.startswith(pre)` as a plain
character-by-character prefix test (deliberately naive, as in the source). -/
def strPrefixOf (pre s : String) : Bool := pre.data.isPrefixOf s.data

/-- Python `s.endswith(post)` as a character-level suffix test. -/
def strEndsWith (s post : String) : Bool := post.data.isSuffixOf s.data

/-- Python `s.rstrip(os.sep)` for the POSIX separator. -/
def rstripSeparator (s : String) : String :=
  String.mk ((s.data.reverse.dropWhile (fun c => c = '/')).reverse)

/-- Helper for splitting a string on the POSIX separator. -/
def splitComponentsAux : List Char → List Char → List String
  | [], cur => [String.mk cur.reverse]
  | c :: rest, cur =>
      if c = '/' then String.mk cur.reverse :: splitComponentsAux rest []
      else splitComponentsAux rest (c :: cur)

/-- `[x for x in s.split('/') if x]`, as used by posixpath.relpath. -/
def splitComponents (s : String) : List String :=
  (splitComponentsAux s.data []).filter (fun c => c ≠ "")

/-- Join path components with the POSIX separator (`os.path.join(*parts)`
for relative component lists). -/
def joinWithSlash : List String → String
  | [] => ""
  | [x] => x
  | x :: y :: rest => x ++ "/" ++ joinWithSlash (y :: rest)

/-- Longest shared leading run of two component lists
(`os.path.commonprefix` on split component lists). -/
def commonStem : List String → List String → List String
  | a :: as, b :: bs => if a = b then a :: commonStem as bs else []
  | _, _ => []

/-- `os.path.relpath(p, base)` on component lists: strip the common stem,
prepend one `..` per remaining component of `base`. -/
def relpath (p base : PyPath) : PyPath :=
  let k := (commonStem p base).length
  List.replicate (base.length - k) ".." ++ p.drop k

/-- `os.path.relpath(path, start)` on strings (posixpath.relpath for
already-absolute, normalized arguments): split both on the separator,
drop empty components, strip the common stem, join with `..` fill,
returning `"."` when nothing remains. -/
def strRelpath (path start : String) : String :=
  let ps := splitComponents path
  let ss := splitComponents start
  let k := (commonStem ps ss).length
  let rel := List.replicate (ss.length - k) ".." ++ ps.drop k
  if rel = [] then "." else joinWithSlash rel

/-- `os.path.isabs` for POSIX strings. -/
def isabs (p : String) : Bool := strPrefixOf "/" p

/-- `os.path.join(root, p)` for POSIX strings. -/
def joinPath (root p : String) : String :=
  if isabs p then p
  else if root = "" || strEndsWith root "/" then root ++ p
  else root ++ "/" ++ p

/-- The filesystem state the merge engine consults, component-path world.
`realpath` is `os.path.realpath` (`none` models the FileNotFoundError caught
in `_merge_into_paths`); `isfile` is `os.path.isfile`; `stSize` is
`os.stat(p).st_size` (`none` models FileNotFoundError from `os.stat`). -/
structure FS where
  realpath : PyPath → Option PyPath
  isfile : PyPath → Bool
  stSize : PyPath → Option Nat

/-- `is_empty(path)`: `os.stat(path).st_size == 0`, with FileNotFoundError
caught and turned into `False`. -/
def is_empty (fs : FS) (p : PyPath) : Bool :=
  match fs.stSize p with
  | some n => n == 0
  | none => false

/-- `relative.endswith("__init__.py")` for a component path: since the
pattern contains no separator, the string test holds exactly when the final
component ends with the pattern. -/
def endsInitPy (rel : PyPath) : Bool :=
  match rel.getLast? with
  | some s => strEndsWith s "__init__.py"
  | none => false

/-- The body of the `for path in paths` loop of
`SharedAnalysisDirectory._merge_into_paths`: skip empty paths, skip relative
paths already present, resolve the real path (FileNotFoundError skips),
skip non-regular files, skip empty `__init__.py` candidates, otherwise
record `all_paths[relative] = absolute` (dict insertion = append of a fresh
key). -/
def mergeStep (fs : FS) (src : PyPath) (acc : List (PyPath × PyPath)) (p : PyPath) :
    List (PyPath × PyPath) :=
  let relative := relpath p src
  if p = [] then acc
  else if (acc.lookup relative).isSome then acc
  else
    match fs.realpath p with
    | none => acc
    | some absolute =>
      if !fs.isfile absolute then acc
      else if endsInitPy relative && is_empty fs absolute then acc
      else acc ++ [(relative, absolute)]

/-- The EnvironmentException message raised by `_find_python_paths` when the
external `find` enumeration fails. -/
def envErrNoAnalysisDir : String :=
  "Pyre was unable to locate an analysis directory. Ensure that your project is built and re-run pyre."

/-- `_find_python_paths(root)`: run the lister; a CalledProcessError is
re-raised as an EnvironmentException with a fixed message. -/
def _find_python_paths (lister : PyPath → Except Unit (List PyPath)) (root : PyPath) :
    Except String (List PyPath) :=
  match lister root with
  | .ok ps => .ok ps
  | .error _ => .error envErrNoAnalysisDir

/-- `SharedAnalysisDirectory._merge_into_paths(source_directory, all_paths)`:
enumerate the source directory, then fold the per-candidate loop body.
The exception from `_find_python_paths` propagates. -/
def _merge_into_paths (fs : FS) (lister : PyPath → Except Unit (List PyPath))
    (src : PyPath) (all_paths : List (PyPath × PyPath)) :
    Except String (List (PyPath × PyPath)) :=
  match _find_python_paths lister src with
  | .error e => .error e
  | .ok paths => .ok (paths.foldl (mergeStep fs src) all_paths)

/-- The `for source_directory in self._source_directories` loop of `_merge`,
threading the accumulated `all_paths` dict and propagating exceptions. -/
def mergeDirs (fs : FS) (lister : PyPath → Except Unit (List PyPath)) :
    List PyPath → List (PyPath × PyPath) → Except String (List (PyPath × PyPath))
  | [], acc => .ok acc
  | d :: ds, acc =>
      match _merge_into_paths fs lister d acc with
      | .error e => .error e
      | .ok acc2 => mergeDirs fs lister ds acc2

/-- `SharedAnalysisDirectory._merge`: build `all_paths` by merging every
source directory, in the iteration order of the source-directory set, into an
initially empty dict. (The subsequent `_add_symbolic_link` loop creates one
link per entry of the returned mapping.) -/
def _merge (fs : FS) (lister : PyPath → Except Unit (List PyPath))
    (dirs : List PyPath) : Except String (List (PyPath × PyPath)) :=
  mergeDirs fs lister dirs []

/-- The pure fold computed by `_merge` when every lister call succeeds with
the given listings. -/
def mergePaths (fs : FS) (listing : PyPath → List PyPath) (dirs : List PyPath)
    (acc : List (PyPath × PyPath)) : List (PyPath × PyPath) :=
  dirs.foldl (fun a d => (listing d).foldl (mergeStep fs d) a) acc

/-- The per-candidate exclusion rules of `_merge_into_paths`, summarized:
`accepts fs p r = some a` exactly when candidate `p` (with relative path `r`)
passes the empty-path, realpath, regular-file and empty-`__init__.py` checks
and would be recorded with absolute real path `a`. -/
def accepts (fs : FS) (p r : PyPath) : Option PyPath :=
  if p = [] then none
  else
    match fs.realpath p with
    | none => none
    | some absolute =>
      if !fs.isfile absolute then none
      else if endsInitPy r && is_empty fs absolute then none
      else some absolute

/-- First accepted candidate with relative path `r` in a single directory's
listing, in listing order. -/
def firstAccept (fs : FS) (src r : PyPath) : List PyPath → Option PyPath
  | [] => none
  | p :: ps =>
      if relpath p src = r then
        match accepts fs p r with
        | some a => some a
        | none => firstAccept fs src r ps
      else firstAccept fs src r ps

/-- Scan the source directories in order, returning the first directory's
accepted candidate for relative path `r`. -/
def mergeLookup (fs : FS) (listing : PyPath → List PyPath) (r : PyPath) :
    List PyPath → Option PyPath
  | [] => none
  | d :: ds =>
      match firstAccept fs d r (listing d) with
      | some a => some a
      | none => mergeLookup fs listing r ds

/-- What a single source directory offers for relative path `r`, phrased via
membership only (hence manifestly independent of the listing's internal
order): the candidate is the unique path `d ++ r`. -/
def dirOffer (fs : FS) (listing : PyPath → List PyPath) (d r : PyPath) :
    Option PyPath :=
  if (d ++ r) ∈ listing d then accepts fs (d ++ r) r else none

/-- The offer of the earliest source directory (in iteration order) that
offers relative path `r` after the exclusion rules. -/
def firstDirOffer (fs : FS) (listing : PyPath → List PyPath) :
    List PyPath → PyPath → Option PyPath
  | [], _ => none
  | d :: ds, r =>
      match dirOffer fs listing d r with
      | some a => some a
      | none => firstDirOffer fs listing ds r

/-- Concrete filesystem for the spec's two-directory example: `/a` holds an
empty `pkg/__init__.py` and `pkg/mod.py`, `/b` holds a 12-byte
`pkg/__init__.py`. -/
def fsC2 : FS where
  realpath := fun p => some p
  isfile := fun p =>
    p == ["a", "pkg", "__init__.py"] || p == ["a", "pkg", "mod.py"] ||
      p == ["b", "pkg", "__init__.py"]
  stSize := fun p =>
    if p = ["a", "pkg", "__init__.py"] then some 0
    else if p = ["b", "pkg", "__init__.py"] then some 12
    else if p = ["a", "pkg", "mod.py"] then some 57
    else none

/-- Lister for the spec's two-directory example. -/
def listerC2 : PyPath → Except Unit (List PyPath) := fun d =>
  if d = ["a"] then .ok [["a", "pkg", "__init__.py"], ["a", "pkg", "mod.py"]]
  else if d = ["b"] then .ok [["b", "pkg", "__init__.py"]]
  else .ok []

/-- `AnalysisDirectory._is_tracked(path)`: true when the path starts with
some tracked directory, normalized to end in exactly one separator
(`directory.rstrip(os.sep) + os.sep`), so the match respects directory
boundaries. -/
def _is_tracked (tracked_directories : List String) (path : String) : Bool :=
  tracked_directories.any
    (fun directory => strPrefixOf (rstripSeparator directory ++ "/") path)

/-- `SharedAnalysisDirectory.process_updated_files(paths)`: for each path, in
order, emit the link from the symbolic-link reverse index if the path is a
key there, else the path itself if it is tracked, else nothing. -/
def process_updated_files (symbolic_links : List (String × String))
    (tracked_directories : List String) (paths : List String) : List String :=
  paths.foldl
    (fun tracked_files path =>
      match symbolic_links.lookup path with
      | some link => tracked_files ++ [link]
      | none =>
          if _is_tracked tracked_directories path then tracked_files ++ [path]
          else tracked_files)
    []

/-- Python dict assignment `m[k] = v`: overwrite in place when the key is
present, otherwise append. -/
def dictInsert (m : List (String × String)) (k v : String) :
    List (String × String) :=
  if (m.lookup k).isSome then
    m.map (fun kv => if kv.1 = k then (k, v) else kv)
  else m ++ [(k, v)]

/-- `_compute_symbolic_link_mapping(directory, extensions)`: on a successful
listing, record `realpath(link) -> link` for every returned link; on a
CalledProcessError from the lister, log and return the (empty) mapping
accumulated so far instead of propagating. -/
def _compute_symbolic_link_mapping (realpath : String → String)
    (listing : Except Unit (List String)) : List (String × String) :=
  match listing with
  | .ok links => links.foldl (fun m link => dictInsert m (realpath link) link) []
  | .error _ => []

/-- `remove_if_exists(path)` acting on the set of existing sibling entries:
deleting an entry removes it; deleting an absent entry is a swallowed
OSError, i.e. a no-op. -/
def remove_if_exists (entries : List String) (name : String) : List String :=
  entries.filter (fun e => e ≠ name)

/-- `SharedAnalysisDirectory._clear()`: iterate over the listed children of
the analysis-directory root, skip every name starting with the reserved
prefix `.pyre`, and best-effort delete the rest. The state is the list of
children of the root. -/
def _clear (children : List String) : List String :=
  children.foldl
    (fun state name =>
      if strPrefixOf ".pyre" name then state else remove_if_exists state name)
    children

/-- Filesystem state consulted by the string-world path translator:
`os.path.exists` and `os.path.realpath`. -/
structure StrFS where
  pathExists : String → Bool
  realpath : String → String

/-- `translate_path(root, path)`: absolute paths pass through; otherwise join
with the root and, when the joined path exists, resolve it, else return the
original path. -/
def translate_path (sfs : StrFS) (root path : String) : String :=
  if isabs path then path
  else
    let translated := joinPath root path
    if sfs.pathExists translated then sfs.realpath translated else path

/-- `translate_paths(paths, original_directory)`: return the input unchanged
unless `original_directory` starts with the current working directory (a
plain string-prefix test); otherwise translate each path by the relative
prefix `os.path.relpath(original_directory, cwd)`, unless that prefix is
empty. -/
def translate_paths (sfs : StrFS) (cwd : String) (paths : List String)
    (original_directory : String) : List String :=
  if !strPrefixOf cwd original_directory then paths
  else
    let translation := strRelpath original_directory cwd
    if translation = "" then paths
    else paths.map (translate_path sfs translation)

/-- The EnvironmentException message of `_resolve_source_directories`. -/
def envErrNoTargets : String := "No targets or source directories to analyze."

/-- `SharedAnalysisDirectory._resolve_source_directories()`: when build
targets are configured, resolve them through the external resolver,
optionally translate the resulting directories against the original
directory, and union them into the source-directory set; then fail with an
EnvironmentException when the set is still empty. -/
def _resolve_source_directories (sfs : StrFS) (cwd : String)
    (resolver : List String → List String)
    (source_directories targets : List String)
    (original_directory : Option String) : Except String (List String) :=
  let dirs :=
    if targets.isEmpty then source_directories
    else
      let newDirs := resolver targets
      let newDirs :=
        match original_directory with
        | some od => translate_paths sfs cwd newDirs od
        | none => newDirs
      source_directories ++ newDirs
  if dirs.isEmpty then .error envErrNoTargets else .ok dirs

/-- Modelled from the spec: `original_directory` is a descendant of (or equal
to) the current working directory, with the boundary respected (so `/foo2`
is not a descendant of `/foo`). Used only to state what the spec claims
about `translate_paths`. -/
def isDescendantOrEqual (cwd dir : String) : Bool :=
  dir == cwd || strPrefixOf (rstripSeparator cwd ++ "/") dir

/-- `find_root(original_directory, target_file)` on the component list of
`os.path.abspath(original_directory)`: walk upward while the current
directory is not the filesystem root `[]`, returning the first directory
containing a regular file named `target_file`. Total by structural descent
on the path length. -/
def find_root (isfile : List String → Bool) (dirs : List String)
    (target : String) : Option (List String) :=
  if h : dirs = [] then none
  else if isfile (dirs ++ [target]) then some dirs
  else find_root isfile dirs.dropLast target
termination_by dirs.length
decreasing_by
  have hpos : 0 < dirs.length := List.length_pos.mpr h
  simp [List.length_dropLast]
  omega

/-- The chain of directories `find_root` visits: the starting directory and
its proper ancestors, stopping before the filesystem root `[]`. -/
def upwardWalk (dirs : List String) : List (List String) :=
  if h : dirs = [] then []
  else dirs :: upwardWalk dirs.dropLast
termination_by dirs.length
decreasing_by
  have hpos : 0 < dirs.length := List.length_pos.mpr h
  simp [List.length_dropLast]
  omega

/-- `WhitelistSpecification`: a NamedTuple with two optional set-valued
fields. A Python set is modelled by the list of its elements in construction
order; set equality is membership equality. -/
structure WhitelistSpecification where
  parameter_type : Option (List String)
  parameter_name : Option (List String)

/-- Python `==` between two optional sets: `None == None` is true, a set
equals a set with the same members, and `None` never equals a set. -/
def optSetEq : Option (List String) → Option (List String) → Prop
  | none, none => True
  | some a, some b => ∀ x, x ∈ a ↔ x ∈ b
  | _, _ => False

/-- Python `==` on `WhitelistSpecification` (NamedTuple equality is
field-wise tuple equality). -/
def whitelistEq (w1 w2 : WhitelistSpecification) : Prop :=
  optSetEq w1.parameter_type w2.parameter_type ∧
    optSetEq w1.parameter_name w2.parameter_name

/-- `sorted(s)` for a Python set with the given elements: the
order-canonical list of the distinct elements. -/
def sortedElems (l : List String) : List String :=
  l.toFinset.sort (· ≤ ·)

/-- `x and tuple(sorted(x))` for an optional set field, followed by use as a
tuple component of `hash(...)`: `None` stays `None` (hashable); a nonempty
set becomes its sorted tuple (hashable); an empty set is falsy, so `and`
returns the raw set, which is unhashable — `hash` raises TypeError,
modelled as `Except.error ()`. -/
def hashOperand (o : Option (List String)) :
    Except Unit (Option (List String)) :=
  match o with
  | none => .ok none
  | some s => if s = [] then .error () else .ok (some (sortedElems s))

/-- `WhitelistSpecification.__hash__`: the canonical key actually hashed,
`hash((parameter_type and tuple(sorted(parameter_type)), parameter_name and
tuple(sorted(parameter_name))))`. Equal keys give equal Python hashes, so
hash equality is modelled by key equality. -/
def whitelistHashKey (w : WhitelistSpecification) :
    Except Unit (Option (List String) × Option (List String)) :=
  match hashOperand w.parameter_type with
  | .error e => .error e
  | .ok a =>
      match hashOperand w.parameter_name with
      | .error e => .error e
      | .ok b => .ok (a, b)

/-- A filesystem with no files at all, for witnesses that do not consult it. -/
def fsTrivial : FS where
  realpath := fun _ => none
  isfile := fun _ => false
  stSize := fun _ => none

/-- A string-world filesystem on which nothing exists. -/
def strFSTrivial : StrFS where
  pathExists := fun _ => false
  realpath := fun p => p

/-- String-world filesystem for the `translate_paths` counterexample: seen
from cwd `/foo`, the joined path `../foo2/x.py` exists and resolves to
`/foo2/x.py`. -/
def sfsC7 : StrFS where
  pathExists := fun p => p == "../foo2/x.py"
  realpath := fun p => if p == "../foo2/x.py" then "/foo2/x.py" else p

/-- Filesystem for the precedence witness: every path is real, a regular
file, and 5 bytes long. -/
def fsC1w : FS where
  realpath := fun p => some p
  isfile := fun _ => true
  stSize := fun _ => some 5

/-- Listings for the precedence witness: `/a` and `/b` both contain `m.py`. -/
def listingC1w : PyPath → List PyPath := fun d =>
  if d = ["a"] then [["a", "m.py"]]
  else if d = ["b"] then [["b", "m.py"]]
  else []

/-- Lister for the precedence witness. -/
def listerC1w : PyPath → Except Unit (List PyPath) := fun d =>
  .ok (listingC1w d)

/-- The merged mapping of the precedence witness. -/
def mC1w : List (PyPath × PyPath) := [(["m.py"], ["a", "m.py"])]

/-- Filesystem for the empty-`__init__.py` witness: the only file is an
empty `/a/pkg/__init__.py`. -/
def fsC10w : FS where
  realpath := fun p => some p
  isfile := fun p => p == ["a", "pkg", "__init__.py"]
  stSize := fun p => if p = ["a", "pkg", "__init__.py"] then some 0 else none

/-- Listings for the empty-`__init__.py` witness. -/
def listingC10w : PyPath → List PyPath := fun d =>
  if d = ["a"] then [["a", "pkg", "__init__.py"]] else []

/-- Lister for the empty-`__init__.py` witness. -/
def listerC10w : PyPath → Except Unit (List PyPath) := fun d =>
  .ok (listingC10w d)

/-- A lister whose enumeration always fails with CalledProcessError. -/
def listerFailW : PyPath → Except Unit (List PyPath) := fun _ => .error ()

/-- Whitelist specification built by inserting b then a. -/
def wlW1 : WhitelistSpecification where
  parameter_type := some ["b", "a"]
  parameter_name := none

/-- Whitelist specification with the same element set built in another
order, with a repetition. -/
def wlW2 : WhitelistSpecification where
  parameter_type := some ["a", "b", "a"]
  parameter_name := none

/-! ### Helper lemmas about association-list lookup and component paths -/

theorem lookupAppend {α β : Type} [BEq α] (k : α) (l1 l2 : List (α × β)) :
    (l1 ++ l2).lookup k =
      match l1.lookup k with
      | some v => some v
      | none => l2.lookup k := by
  induction l1 with
  | nil => simp [List.lookup]
  | cons kv t ih =>
      obtain ⟨a, b⟩ := kv
      simp only [List.cons_append, List.lookup]
      cases hka : k == a
      · simpa using ih
      · simp

theorem commonStem_append (d s : List String) : commonStem (d ++ s) d = d := by
  induction d with
  | nil => cases s <;> simp [commonStem]
  | cons a t ih => simp [commonStem, ih]

theorem relpath_append (d s : PyPath) : relpath (d ++ s) d = s := by
  simp [relpath, commonStem_append, List.drop_left]

theorem mergeStep_eq (fs : FS) (src : PyPath) (acc : List (PyPath × PyPath))
    (p : PyPath) :
    mergeStep fs src acc p =
      if (acc.lookup (relpath p src)).isSome then acc
      else
        match accepts fs p (relpath p src) with
        | some a => acc ++ [(relpath p src, a)]
        | none => acc := by
  by_cases hp : p = []
  · by_cases hl : (acc.lookup (relpath p src)).isSome
    · simp [mergeStep, accepts, hp, hl]
    · simp [mergeStep, accepts, hp, hl]
  · by_cases hl : (acc.lookup (relpath p src)).isSome
    · simp [mergeStep, accepts, hp, hl]
    · cases hr : fs.realpath p with
      | none => simp [mergeStep, accepts, hp, hl, hr]
      | some a =>
          cases hf : fs.isfile a
          · simp [mergeStep, accepts, hp, hl, hr, hf]
          · cases he : (endsInitPy (relpath p src) && is_empty fs a)
            · simp [mergeStep, accepts, hp, hl, hr, hf, he]
            · simp [mergeStep, accepts, hp, hl, hr, hf, he]

theorem mergeStep_lookup (fs : FS) (src : PyPath)
    (acc : List (PyPath × PyPath)) (p r : PyPath) :
    (mergeStep fs src acc p).lookup r =
      match acc.lookup r with
      | some v => some v
      | none => if relpath p src = r then accepts fs p r else none := by
  rw [mergeStep_eq]
  by_cases hl : (acc.lookup (relpath p src)).isSome
  · simp only [hl, if_true]
    cases hacc : acc.lookup r
    · by_cases hrel : relpath p src = r
      · rw [hrel, hacc] at hl; simp at hl
      · simp [hacc, hrel]
    · simp [hacc]
  · simp only [hl, Bool.false_eq_true, if_false]
    cases ha : accepts fs p (relpath p src)
    · cases hacc : acc.lookup r
      · by_cases hrel : relpath p src = r
        · rw [hrel] at ha; simp [hacc, hrel, ha]
        · simp [hacc, hrel]
      · simp [hacc]
    · rw [lookupAppend]
      cases hacc : acc.lookup r
      · by_cases hrel : relpath p src = r
        · rw [hrel] at ha ⊢
          simp [hacc, hrel, ha, List.lookup]
        · have hne : (r == relpath p src) = false := by
            simp [Ne.symm hrel]
          simp [hacc, hrel, List.lookup, hne]
      · simp [hacc]

theorem foldlMergeStep_lookup (fs : FS) (src r : PyPath) (ps : List PyPath) :
    ∀ acc : List (PyPath × PyPath),
      ((ps.foldl (mergeStep fs src) acc).lookup r) =
        match acc.lookup r with
        | some v => some v
        | none => firstAccept fs src r ps := by
  induction ps with
  | nil =>
      intro acc
      cases hacc : acc.lookup r <;> simp [firstAccept, hacc]
  | cons p ps ih =>
      intro acc
      rw [List.foldl_cons, ih, mergeStep_lookup]
      cases hacc : acc.lookup r
      · by_cases hrel : relpath p src = r
        · cases ha : accepts fs p r
          · simp [firstAccept, hrel, ha]
          · simp [firstAccept, hrel, ha]
        · simp [firstAccept, hrel]
      · simp

theorem mergePaths_cons (fs : FS) (listing : PyPath → List PyPath)
    (d : PyPath) (ds : List PyPath) (acc : List (PyPath × PyPath)) :
    mergePaths fs listing (d :: ds) acc =
      mergePaths fs listing ds ((listing d).foldl (mergeStep fs d) acc) := by
  simp [mergePaths]

theorem mergeDirs_ok (fs : FS) (lister : PyPath → Except Unit (List PyPath))
    (listing : PyPath → List PyPath) :
    ∀ (dirs : List PyPath) (acc : List (PyPath × PyPath)),
      (∀ d ∈ dirs, lister d = .ok (listing d)) →
      mergeDirs fs lister dirs acc = .ok (mergePaths fs listing dirs acc) := by
  intro dirs
  induction dirs with
  | nil => intro acc _; simp [mergeDirs, mergePaths]
  | cons d ds ih =>
      intro acc hok
      have hd := hok d (by simp)
      rw [mergeDirs, _merge_into_paths, _find_python_paths, hd, mergePaths_cons]
      exact ih _ (fun d2 hd2 => hok d2 (by simp [hd2]))

theorem mergePaths_lookup (fs : FS) (listing : PyPath → List PyPath)
    (r : PyPath) :
    ∀ (dirs : List PyPath) (acc : List (PyPath × PyPath)),
      (mergePaths fs listing dirs acc).lookup r =
        match acc.lookup r with
        | some v => some v
        | none => mergeLookup fs listing r dirs := by
  intro dirs
  induction dirs with
  | nil =>
      intro acc
      cases hacc : acc.lookup r <;> simp [mergePaths, mergeLookup, hacc]
  | cons d ds ih =>
      intro acc
      rw [mergePaths_cons, ih, foldlMergeStep_lookup]
      cases hacc : acc.lookup r
      · cases hfa : firstAccept fs d r (listing d) <;>
          simp [mergeLookup, hacc, hfa]
      · simp

theorem firstAccept_eq_offer (fs : FS) (d r : PyPath) :
    ∀ l : List PyPath, (∀ p ∈ l, ∃ s, s ≠ [] ∧ p = d ++ s) →
      firstAccept fs d r l =
        (if (d ++ r) ∈ l then accepts fs (d ++ r) r else none) := by
  intro l
  induction l with
  | nil => intro _; simp [firstAccept]
  | cons p t ih =>
      intro hund
      obtain ⟨s, hs, rfl⟩ := hund p (by simp)
      have ht : ∀ q ∈ t, ∃ s2, s2 ≠ [] ∧ q = d ++ s2 :=
        fun q hq => hund q (by simp [hq])
      by_cases hsr : s = r
      · subst hsr
        rw [firstAccept]
        rw [if_pos (relpath_append d s)]
        cases ha : accepts fs (d ++ s) s
        · rw [ih ht]
          by_cases hmem : (d ++ s) ∈ t <;> simp [hmem, ha]
        · simp [ha]
      · have hne : d ++ r ≠ d ++ s := by
          intro hcontra
          exact hsr (List.append_cancel_left hcontra).symm
        rw [firstAccept]
        rw [if_neg (by rw [relpath_append]; exact hsr)]
        rw [ih ht]
        by_cases hmem : (d ++ r) ∈ t
        · simp [hmem, List.mem_cons]
        · have : (d ++ r) ∉ (d ++ s) :: t := by
            simp [List.mem_cons, hne, hmem]
          simp [hmem, this]

theorem mergeLookup_eq_offer (fs : FS) (listing : PyPath → List PyPath) :
    ∀ (dirs : List PyPath) (r : PyPath),
      (∀ d ∈ dirs, ∀ p ∈ listing d, ∃ s, s ≠ [] ∧ p = d ++ s) →
      mergeLookup fs listing r dirs = firstDirOffer fs listing dirs r := by
  intro dirs
  induction dirs with
  | nil => intro r _; rfl
  | cons d ds ih =>
      intro r hund
      have hd := hund d (by simp)
      have hds : ∀ d2 ∈ ds, ∀ p ∈ listing d2, ∃ s, s ≠ [] ∧ p = d2 ++ s :=
        fun d2 hd2 => hund d2 (by simp [hd2])
      rw [mergeLookup, firstDirOffer]
      rw [firstAccept_eq_offer fs d r (listing d) hd]
      show (match dirOffer fs listing d r with
            | some a => some a
            | none => mergeLookup fs listing r ds) = _
      cases hoff : dirOffer fs listing d r <;> simp [hoff, ih r hds]

theorem firstDirOffer_perm (fs : FS) (listing listing2 : PyPath → List PyPath) :
    ∀ (dirs : List PyPath) (r : PyPath),
      (∀ d ∈ dirs, List.Perm (listing2 d) (listing d)) →
      firstDirOffer fs listing2 dirs r = firstDirOffer fs listing dirs r := by
  intro dirs
  induction dirs with
  | nil => intro r _; rfl
  | cons d ds ih =>
      intro r hperm
      have hmem : ((d ++ r) ∈ listing2 d) ↔ ((d ++ r) ∈ listing d) :=
        (hperm d (by simp)).mem_iff
      have hds : ∀ d2 ∈ ds, List.Perm (listing2 d2) (listing d2) :=
        fun d2 hd2 => hperm d2 (by simp [hd2])
      rw [firstDirOffer, firstDirOffer]
      unfold dirOffer
      by_cases h2 : (d ++ r) ∈ listing2 d
      · rw [if_pos h2, if_pos (hmem.mp h2)]
        cases accepts fs (d ++ r) r <;> simp [ih r hds]
      · rw [if_neg h2, if_neg (fun hc => h2 (hmem.mpr hc))]
        simp [ih r hds]

theorem firstAccept_none_of_empty_init (fs : FS) (d r : PyPath) :
    ∀ l : List PyPath,
      (∀ p ∈ l, relpath p d = r →
        endsInitPy r = true ∧ ∃ a, fs.realpath p = some a ∧ fs.stSize a = some 0) →
      firstAccept fs d r l = none := by
  intro l
  induction l with
  | nil => intro _; rfl
  | cons p t ih =>
      intro h
      have ht : ∀ q ∈ t, relpath q d = r →
          endsInitPy r = true ∧ ∃ a, fs.realpath q = some a ∧ fs.stSize a = some 0 :=
        fun q hq => h q (by simp [hq])
      by_cases hrel : relpath p d = r
      · obtain ⟨hends, a, hra, hsz⟩ := h p (by simp) hrel
        have hacc : accepts fs p r = none := by
          unfold accepts
          by_cases hp : p = []
          · simp [hp]
          · rw [if_neg hp, hra]
            have hemp : is_empty fs a = true := by simp [is_empty, hsz]
            cases hf : fs.isfile a <;> simp [hf, hends, hemp]
        rw [firstAccept, if_pos hrel, hacc, ih ht]
      · rw [firstAccept, if_neg hrel]
        exact ih ht

theorem mergeLookup_none_of_empty_init (fs : FS)
    (listing : PyPath → List PyPath) (r : PyPath) :
    ∀ dirs : List PyPath,
      (∀ d ∈ dirs, ∀ p ∈ listing d, relpath p d = r →
        endsInitPy r = true ∧ ∃ a, fs.realpath p = some a ∧ fs.stSize a = some 0) →
      mergeLookup fs listing r dirs = none := by
  intro dirs
  induction dirs with
  | nil => intro _; rfl
  | cons d ds ih =>
      intro h
      rw [mergeLookup]
      rw [firstAccept_none_of_empty_init fs d r (listing d) (h d (by simp))]
      exact ih (fun d2 hd2 => h d2 (by simp [hd2]))

/-! ### The claims about the merge engine -/

/-- Claim C1: for every configured set of source directories and every
relative path, the merged mapping built by `_merge` maps that relative path
to the absolute real path contributed (i.e. offered after the exclusion
rules) by the earliest source directory in the iteration order of the
configured source-directory set; later directories contributing the same
relative path are ignored, and the result is independent of the filesystem
iteration order within any single directory (any per-directory permutation
of the listings yields the same value). -/
theorem c1_merge_first_directory_wins
    (fs : FS) (lister lister2 : PyPath → Except Unit (List PyPath))
    (listing listing2 : PyPath → List PyPath)
    (dirs : List PyPath) (r a : PyPath) (m m2 : List (PyPath × PyPath))
    (hok : ∀ d ∈ dirs, lister d = .ok (listing d))
    (hok2 : ∀ d ∈ dirs, lister2 d = .ok (listing2 d))
    (hperm : ∀ d ∈ dirs, List.Perm (listing2 d) (listing d))
    (hunder : ∀ d ∈ dirs, ∀ p ∈ listing d, ∃ s, s ≠ [] ∧ p = d ++ s)
    (hwin : firstDirOffer fs listing dirs r = some a)
    (hm : _merge fs lister dirs = .ok m)
    (hm2 : _merge fs lister2 dirs = .ok m2) :
    m.lookup r = some a ∧ m2.lookup r = some a := by
  have hunder2 : ∀ d ∈ dirs, ∀ p ∈ listing2 d, ∃ s, s ≠ [] ∧ p = d ++ s :=
    fun d hd p hp => hunder d hd p ((hperm d hd).mem_iff.mp hp)
  have key : ∀ (li : PyPath → Except Unit (List PyPath))
      (lg : PyPath → List PyPath) (mm : List (PyPath × PyPath)),
      (∀ d ∈ dirs, li d = .ok (lg d)) →
      (∀ d ∈ dirs, ∀ p ∈ lg d, ∃ s, s ≠ [] ∧ p = d ++ s) →
      firstDirOffer fs lg dirs r = some a →
      _merge fs li dirs = .ok mm → mm.lookup r = some a := by
    intro li lg mm hok3 hund3 hwin3 hm3
    have h1 : mergeDirs fs li dirs [] = .ok (mergePaths fs lg dirs []) :=
      mergeDirs_ok fs li lg dirs [] hok3
    have h2 : Except.ok (ε := String) (mergePaths fs lg dirs []) = .ok mm := by
      rw [← h1]; exact hm3
    have h3 : mergePaths fs lg dirs [] = mm := by
      injection h2
    rw [← h3, mergePaths_lookup]
    show mergeLookup fs lg r dirs = some a
    rw [mergeLookup_eq_offer fs lg dirs r hund3]
    exact hwin3
  have hwin2 : firstDirOffer fs listing2 dirs r = some a := by
    rw [firstDirOffer_perm fs listing listing2 dirs r hperm]
    exact hwin
  exact ⟨key lister listing m hok hunder hwin hm,
         key lister2 listing2 m2 hok2 hunder2 hwin2 hm2⟩

/-- Witness for C1 at a concrete input: directories `/a` then `/b` both
supply `m.py`; the merged mapping maps it to `/a/m.py`. -/
theorem c1_witness :
    List.lookup (["m.py"] : PyPath) mC1w = some ["a", "m.py"] := by
  refine (c1_merge_first_directory_wins fsC1w listerC1w listerC1w
    listingC1w listingC1w [["a"], ["b"]] ["m.py"] ["a", "m.py"] mC1w mC1w
    ?_ ?_ ?_ ?_ ?_ ?_ ?_).1
  · intro d _; rfl
  · intro d _; rfl
  · intro d _; exact List.Perm.refl _
  · intro d hd p hp
    simp only [List.mem_cons, List.mem_singleton, List.not_mem_nil] at hd
    rcases hd with rfl | rfl | hfalse
    · simp [listingC1w] at hp
      subst hp
      exact ⟨["m.py"], by simp, rfl⟩
    · simp [listingC1w] at hp
      subst hp
      exact ⟨["m.py"], by simp, rfl⟩
    · exact absurd hfalse (by simp)
  · rfl
  · rfl
  · rfl

/-- Claim C2: with source directory `/a` (holding an empty
`pkg/__init__.py` and `pkg/mod.py`) merged before `/b` (holding a 12-byte
`pkg/__init__.py`), the merge maps `pkg/__init__.py` to `/b/pkg/__init__.py`
(the non-empty file wins over the higher-precedence empty one) and maps
`pkg/mod.py` to `/a/pkg/mod.py`. -/
theorem c2_empty_init_example :
    ∃ m, _merge fsC2 listerC2 [["a"], ["b"]] = .ok m ∧
      m.lookup ["pkg", "__init__.py"] = some ["b", "pkg", "__init__.py"] ∧
      m.lookup ["pkg", "mod.py"] = some ["a", "pkg", "mod.py"] :=
  ⟨[(["pkg", "mod.py"], ["a", "pkg", "mod.py"]),
    (["pkg", "__init__.py"], ["b", "pkg", "__init__.py"])], rfl, rfl, rfl⟩

/-- Claim C10: during a merge, a candidate whose path relative to its source
directory is `r` is never added for `r` when every candidate for `r` ends in
`__init__.py` and resolves to a real file of size zero — even when no other
source directory supplies `r` — so the merged mapping (from which the
symbolic links are created one per entry) has no entry at `r` at all. -/
theorem c10_empty_init_never_merged
    (fs : FS) (lister : PyPath → Except Unit (List PyPath))
    (listing : PyPath → List PyPath) (dirs : List PyPath) (r : PyPath)
    (m : List (PyPath × PyPath))
    (hok : ∀ d ∈ dirs, lister d = .ok (listing d))
    (hcand : ∀ d ∈ dirs, ∀ p ∈ listing d, relpath p d = r →
      endsInitPy r = true ∧ ∃ a, fs.realpath p = some a ∧ fs.stSize a = some 0)
    (hm : _merge fs lister dirs = .ok m) :
    m.lookup r = none := by
  have h1 : mergeDirs fs lister dirs [] = .ok (mergePaths fs listing dirs []) :=
    mergeDirs_ok fs lister listing dirs [] hok
  have h2 : Except.ok (ε := String) (mergePaths fs listing dirs []) = .ok m := by
    rw [← h1]; exact hm
  have h3 : mergePaths fs listing dirs [] = m := by injection h2
  rw [← h3, mergePaths_lookup]
  show mergeLookup fs listing r dirs = none
  exact mergeLookup_none_of_empty_init fs listing r dirs hcand

/-- Witness for C10 at a concrete input: the only candidate anywhere is an
empty `/a/pkg/__init__.py`; the merge succeeds with an empty mapping and has
no entry for `pkg/__init__.py`. -/
theorem c10_witness :
    _merge fsC10w listerC10w [["a"]] = .ok [] ∧
      List.lookup (["pkg", "__init__.py"] : PyPath)
        ([] : List (PyPath × PyPath)) = none := by
  refine ⟨rfl, ?_⟩
  refine c10_empty_init_never_merged fsC10w listerC10w listingC10w [["a"]]
    ["pkg", "__init__.py"] [] ?_ ?_ rfl
  · intro d _; rfl
  · intro d hd p hp hrel
    simp only [List.mem_singleton] at hd
    subst hd
    simp [listingC10w] at hp
    subst hp
    exact ⟨by decide, ⟨["a", "pkg", "__init__.py"], rfl, rfl⟩⟩

/-- Claim C4: a lister (find) failure during reverse-index construction is
non-fatal — `_compute_symbolic_link_mapping` returns an empty index — while
the same failure during the merge's own enumeration of any configured source
directory surfaces from `_merge` as the fatal EnvironmentException
(configuration-class) that `prepare()` does not catch. -/
theorem c4_lister_failure_handling
    (rp : String → String) (fs : FS)
    (lister : PyPath → Except Unit (List PyPath)) (dirs : List PyPath)
    (d : PyPath) (hd : d ∈ dirs) (hfail : lister d = .error ()) :
    _compute_symbolic_link_mapping rp (.error ()) = [] ∧
      _merge fs lister dirs = .error envErrNoAnalysisDir := by
  refine ⟨rfl, ?_⟩
  have key : ∀ (ds : List PyPath) (acc : List (PyPath × PyPath)), d ∈ ds →
      mergeDirs fs lister ds acc = .error envErrNoAnalysisDir := by
    intro ds
    induction ds with
    | nil => intro acc h; simp at h
    | cons d0 t ih =>
        intro acc h
        cases hl : lister d0 with
        | error e => simp [mergeDirs, _merge_into_paths, _find_python_paths, hl]
        | ok ps =>
            have hne : d ≠ d0 := by
              intro hc
              rw [hc, hl] at hfail
              exact Except.noConfusion hfail
            have hmem : d ∈ t := by
              rcases List.mem_cons.mp h with h1 | h2
              · exact absurd h1 hne
              · exact h2
            rw [mergeDirs, _merge_into_paths, _find_python_paths, hl]
            exact ih _ hmem
  exact key dirs [] hd

/-- Witness for C4 at a concrete input: a lister that always fails yields an
empty reverse index and a fatal merge error. -/
theorem c4_witness :
    _compute_symbolic_link_mapping (fun s => s) (.error ()) = [] ∧
      _merge fsTrivial listerFailW [["a"]] = .error envErrNoAnalysisDir :=
  c4_lister_failure_handling (fun s => s) fsTrivial listerFailW [["a"]] ["a"]
    (by simp) rfl

/-! ### Change translation, clear, resolution, path translation -/

/-- Claim C3: `process_updated_files` emits, for each input path in order,
the link path when the path is a key of the symbolic-link reverse index;
the path itself when it is not a key but lies under a tracked directory
(matched on a normalized directory boundary, so a path under `/foo2` does
not match tracked root `/foo`); and nothing otherwise — exactly a
`filterMap`, hence never duplicating or inventing entries. -/
theorem c3_process_updated_files_characterization
    (symbolic_links : List (String × String)) (tracked : List String)
    (paths : List String) :
    process_updated_files symbolic_links tracked paths =
      paths.filterMap (fun path =>
        match symbolic_links.lookup path with
        | some link => some link
        | none => if _is_tracked tracked path then some path else none) ∧
    _is_tracked ["/foo"] "/foo2/bar.py" = false ∧
    _is_tracked ["/foo"] "/foo/bar.py" = true := by
  refine ⟨?_, by decide, by decide⟩
  suffices H : ∀ (ps : List String) (acc : List String),
      ps.foldl
        (fun tf path =>
          match symbolic_links.lookup path with
          | some link => tf ++ [link]
          | none => if _is_tracked tracked path then tf ++ [path] else tf)
        acc =
      acc ++ ps.filterMap (fun path =>
        match symbolic_links.lookup path with
        | some link => some link
        | none => if _is_tracked tracked path then some path else none) by
    simpa [process_updated_files] using H paths []
  intro ps
  induction ps with
  | nil => intro acc; simp
  | cons p t ih =>
      intro acc
      rw [List.foldl_cons, ih, List.filterMap_cons]
      cases h : symbolic_links.lookup p
      · by_cases htr : _is_tracked tracked p <;> simp [h, htr]
      · simp [h]

theorem clearFoldAux (reserved : String → Bool) :
    ∀ (l st : List String),
      l.foldl
        (fun s n => if reserved n then s else s.filter (fun e => e ≠ n)) st =
      st.filter (fun c => !(!reserved c && l.contains c)) := by
  intro l
  induction l with
  | nil =>
      intro st
      simp
  | cons n t ih =>
      intro st
      rw [List.foldl_cons]
      cases hr : reserved n
      · rw [if_neg (show ¬(false = true) by simp)]
        rw [ih, List.filter_filter]
        apply List.filter_congr
        intro c _
        by_cases hcn : c = n
        · subst hcn; simp [hr, List.contains_cons]
        · cases hrc : reserved c <;> simp [hcn, hrc, List.contains_cons]
      · rw [if_pos rfl, ih]
        apply List.filter_congr
        intro c _
        by_cases hcn : c = n
        · subst hcn; simp [hr, List.contains_cons]
        · cases hrc : reserved c <;> simp [hcn, hrc, List.contains_cons]

/-- Claim C5: the clear phase removes exactly the immediate children of the
analysis-directory root whose names do not begin with the reserved `.pyre`
prefix; reserved-prefixed entries are untouched, clearing a directory with
only reserved entries is a no-op, deleting an absent entry is a no-op, and
deletion is idempotent. -/
theorem c5_clear_exactly_unreserved (children : List String) :
    _clear children = children.filter (fun c => strPrefixOf ".pyre" c) ∧
    ((∀ c ∈ children, strPrefixOf ".pyre" c = true) →
      _clear children = children) ∧
    (∀ (entries : List String) (name : String), name ∉ entries →
      remove_if_exists entries name = entries) ∧
    (∀ (entries : List String) (name : String),
      remove_if_exists (remove_if_exists entries name) name =
        remove_if_exists entries name) := by
  have hmain : _clear children =
      children.filter (fun c => strPrefixOf ".pyre" c) := by
    unfold _clear remove_if_exists
    rw [clearFoldAux]
    apply List.filter_congr
    intro c hc
    have hcc : children.contains c = true := List.elem_iff.mpr hc
    cases hres : strPrefixOf ".pyre" c <;> simp [hres, hcc, hc]
  refine ⟨hmain, ?_, ?_, ?_⟩
  · intro hall
    rw [hmain]
    exact List.filter_eq_self.mpr (fun c hc => hall c hc)
  · intro entries name hn
    unfold remove_if_exists
    apply List.filter_eq_self.mpr
    intro e he
    have hne : e ≠ name := fun hc => hn (hc ▸ he)
    simp [hne]
  · intro entries name
    unfold remove_if_exists
    rw [List.filter_filter]
    apply List.filter_congr
    intro e _
    simp

/-- Witness for C5 at a concrete input: clearing a root that holds only the
reserved lock file is a no-op. -/
theorem c5_witness : _clear [".pyre.lock"] = [".pyre.lock"] :=
  (c5_clear_exactly_unreserved [".pyre.lock"]).2.1 (by decide)

/-- Claim C6: after `_resolve_source_directories` (resolving configured
targets through the external resolver and unioning the results into the
source-directory set), an empty source-directory set fails with the
configuration-class EnvironmentException; a successful result is never
empty, so the merge never runs with nothing to merge. -/
theorem c6_empty_resolution_fails (sfs : StrFS) (cwd : String)
    (resolver : List String → List String)
    (source_directories targets : List String)
    (original_directory : Option String) :
    _resolve_source_directories sfs cwd resolver source_directories targets
        original_directory = .error envErrNoTargets ∨
      ∃ dirs, _resolve_source_directories sfs cwd resolver source_directories
          targets original_directory = .ok dirs ∧ dirs ≠ [] := by
  have key : ∀ l : List String,
      ((if l.isEmpty then (Except.error envErrNoTargets :
          Except String (List String)) else .ok l) = .error envErrNoTargets) ∨
      ∃ dirs, (if l.isEmpty then (Except.error envErrNoTargets :
          Except String (List String)) else .ok l) = .ok dirs ∧ dirs ≠ [] := by
    intro l
    by_cases h : l.isEmpty
    · left; simp [h]
    · right
      exact ⟨l, by simp [h], by simpa [List.isEmpty_iff] using h⟩
  unfold _resolve_source_directories
  exact key _

/-- Counterexample to claim C7 as stated: `/foo2` is not a descendant of
(nor equal to) the current working directory `/foo`, yet `translate_paths`
does not return the input unchanged there — the guard is a naive string
prefix test, `"/foo2".startswith("/foo")` is true, and the relative path
`x.py` gets rewritten to `/foo2/x.py`. -/
theorem c7_counterexample :
    isDescendantOrEqual "/foo" "/foo2" = false ∧
      translate_paths sfsC7 "/foo" ["x.py"] "/foo2" ≠ ["x.py"] := by
  refine ⟨by decide, ?_⟩
  intro h
  have : translate_paths sfsC7 "/foo" ["x.py"] "/foo2" = ["/foo2/x.py"] := by
    decide
  rw [this] at h
  simp at h

/-- Claim C7 amended: `translate_paths` rewrites the paths only when
`original_directory` has the current working directory as a plain string
prefix (a naive test, which also admits siblings such as `/foo2` against cwd
`/foo`); when the prefix test fails, and also when the computed relative
prefix is empty, it returns the input unchanged. -/
theorem c7_translate_paths_amended (sfs : StrFS) (cwd : String)
    (paths : List String) (original_directory : String) :
    (strPrefixOf cwd original_directory = false →
      translate_paths sfs cwd paths original_directory = paths) ∧
    (strRelpath original_directory cwd = "" →
      translate_paths sfs cwd paths original_directory = paths) ∧
    (strPrefixOf cwd original_directory = true →
      strRelpath original_directory cwd ≠ "" →
      translate_paths sfs cwd paths original_directory =
        paths.map (translate_path sfs (strRelpath original_directory cwd))) := by
  refine ⟨?_, ?_, ?_⟩
  · intro h
    simp [translate_paths, h]
  · intro h
    by_cases hpre : strPrefixOf cwd original_directory <;>
      simp [translate_paths, hpre, h]
  · intro hpre hrel
    simp [translate_paths, hpre, hrel]

/-- Witness for the amended C7 at a concrete input: `/y` does not start
with `/x`, so the paths pass through unchanged. -/
theorem c7_witness :
    strPrefixOf "/x" "/y" = false ∧
      translate_paths strFSTrivial "/x" ["p.py"] "/y" = ["p.py"] :=
  ⟨by decide,
    (c7_translate_paths_amended strFSTrivial "/x" ["p.py"] "/y").1 (by decide)⟩

/-- Claim C8: `find_root` terminates for every starting directory (it is a
total function, defined by descent on the path length), and returns the
first directory on the upward walk from the start (inclusive) containing a
file with the marker name, or `none` when the filesystem root is reached
without a match. -/
theorem c8_find_root_first_marker (isfile : List String → Bool)
    (dirs : List String) (target : String) :
    find_root isfile dirs target =
      (upwardWalk dirs).find? (fun d => isfile (d ++ [target])) := by
  suffices H : ∀ (n : Nat) (ds : List String), ds.length ≤ n →
      find_root isfile ds target =
        (upwardWalk ds).find? (fun d => isfile (d ++ [target])) from
    H dirs.length dirs le_rfl
  intro n
  induction n with
  | zero =>
      intro ds h
      have hnil : ds = [] := List.length_eq_zero.mp (Nat.le_zero.mp h)
      subst hnil
      rw [find_root, upwardWalk]
      simp
  | succ n ih =>
      intro ds h
      rcases eq_or_ne ds [] with rfl | hne
      · rw [find_root, upwardWalk]
        simp
      · rw [find_root, upwardWalk]
        rw [dif_neg hne, dif_neg hne]
        by_cases hf : isfile (ds ++ [target])
        · rw [if_pos hf]
          simp [List.find?_cons, hf]
        · rw [if_neg hf]
          have hstep : List.find? (fun d => isfile (d ++ [target]))
              (ds :: upwardWalk ds.dropLast) =
              List.find? (fun d => isfile (d ++ [target]))
                (upwardWalk ds.dropLast) := by
            simp [List.find?_cons, hf]
          rw [hstep]
          exact ih ds.dropLast (by rw [List.length_dropLast]; omega)

/-- Counterexample to claim C9 as stated: two `WhitelistSpecification`
values whose fields are equal sets can fail to have hashes at all — with
`parameter_type` an empty set, `parameter_type and tuple(sorted(...))` is
the raw (unhashable) set, so `__hash__` raises TypeError instead of
producing equal hashes. -/
theorem c9_counterexample :
    whitelistEq ⟨some [], none⟩ ⟨some [], none⟩ ∧
      ¬ ∃ k, whitelistHashKey ⟨some [], none⟩ = .ok k := by
  constructor
  · exact ⟨fun x => Iff.rfl, trivial⟩
  · rintro ⟨k, hk⟩
    exact Except.noConfusion hk

/-- Claim C9 amended: for every two `WhitelistSpecification` values whose
`parameter_type` fields are equal (both `None`, or sets with the same
elements) and whose `parameter_name` fields are equal, provided each
set-valued field of the first is not the empty set (empty sets make
`__hash__` raise TypeError), the two values compare equal and their hashes
are equal — regardless of the order in which the set elements were
constructed or inserted. -/
theorem c9_whitelist_spec_hash_eq (w1 w2 : WhitelistSpecification)
    (ht : optSetEq w1.parameter_type w2.parameter_type)
    (hn : optSetEq w1.parameter_name w2.parameter_name)
    (hne1 : w1.parameter_type ≠ some [])
    (hne2 : w1.parameter_name ≠ some []) :
    whitelistEq w1 w2 ∧
      ∃ k, whitelistHashKey w1 = .ok k ∧ whitelistHashKey w2 = .ok k := by
  obtain ⟨t1, n1⟩ := w1
  obtain ⟨t2, n2⟩ := w2
  refine ⟨⟨ht, hn⟩, ?_⟩
  have hop : ∀ a b : Option (List String), optSetEq a b → a ≠ some [] →
      ∃ o, hashOperand a = .ok o ∧ hashOperand b = .ok o := by
    intro a b hab hne
    match a, b with
    | none, none => exact ⟨none, rfl, rfl⟩
    | some s1, some s2 =>
        have hs1 : s1 ≠ [] := fun hc => hne (by rw [hc])
        have hs2 : s2 ≠ [] := by
          intro hc
          obtain ⟨x, hx⟩ := List.exists_mem_of_ne_nil s1 hs1
          have hmem := (hab x).mp hx
          rw [hc] at hmem
          simp at hmem
        have hsort : sortedElems s1 = sortedElems s2 := by
          unfold sortedElems
          congr 1
          apply Finset.ext
          intro x
          simpa [List.mem_toFinset] using hab x
        exact ⟨some (sortedElems s1),
          by simp [hashOperand, hs1],
          by simp [hashOperand, hs2, hsort]⟩
    | none, some s2 => exact absurd hab (by simp [optSetEq])
    | some s1, none => exact absurd hab (by simp [optSetEq])
  obtain ⟨o1, h11, h12⟩ := hop t1 t2 ht hne1
  obtain ⟨o2, h21, h22⟩ := hop n1 n2 hn hne2
  exact ⟨(o1, o2),
    by simp [whitelistHashKey, h11, h21],
    by simp [whitelistHashKey, h12, h22]⟩

/-- Witness for the amended C9 at a concrete input: the sets built from
insertion orders `b, a` and `a, b, a` compare equal and hash to the same
canonical key. -/
theorem c9_witness :
    whitelistEq wlW1 wlW2 ∧
      ∃ k, whitelistHashKey wlW1 = .ok k ∧ whitelistHashKey wlW2 = .ok k := by
  refine c9_whitelist_spec_hash_eq wlW1 wlW2 ?_ ?_ (by decide) (by decide)
  · intro x
    show x ∈ ["b", "a"] ↔ x ∈ ["a", "b", "a"]
    constructor <;> intro hx <;> simp [List.mem_cons] at hx ⊢ <;> tauto
  · exact trivial
